import Mathlib

/-!
Verification development for the sky-view-factor / wind-downscaling notebook.

The notebook computes, from a digital elevation model (DEM), the mean squared
slope, the typical width of topographic features, the sky view factor and a
topographic wind-downscaling factor, and mosaics per-cell results into two
full-resolution output rasters.

Modelling conventions of this shallow embedding:
* numpy 2-D float arrays are `Grid ℝ` (shape plus a total valuation function);
  arrays that can hold the nan no-data sentinel are `Grid (Option ℝ)`, with
  `none` standing for nan/no-data;
* Python slicing `a[r0:r1, c0:c1]` (including clipping and the wrap-around of
  negative bounds) is modelled exactly by `pyBound`/`pySub`;
* floating point numbers are modelled by real numbers; the one place where the
  IEEE non-finite outcomes of a division are the point of interest
  (`compute_typical_width`) returns `NpFloat`, a real number tagged as finite,
  infinite or nan, mirroring what numpy float division produces (numpy emits a
  RuntimeWarning on division by zero and returns inf/nan, it does not raise);
* the Python variable that holds either a numpy array or the integer sentinel
  -999 (the raster-mode accumulators) is `PyVal`;
* `np.vectorize` raises ValueError on size-0 input (documented numpy
  behaviour); this is the modelled exception of the raster-mode try block.
-/

namespace HRDPS

noncomputable section

open scoped Classical

/-- A 2-D array: a shape together with a total valuation function.  Entries
outside the shape are junk and never consumed by the definitions below. -/
structure Grid (α : Type) where
  rows : ℕ
  cols : ℕ
  val : ℕ → ℕ → α

/-- Zero-padded integer-indexed read, as used by the boundary handling of
`scipy.signal.convolve2d(..., mode=same)` (zero fill outside the array). -/
def get0 (m : Grid ℝ) (i j : ℤ) : ℝ :=
  if 0 ≤ i ∧ i < (m.rows : ℤ) ∧ 0 ≤ j ∧ j < (m.cols : ℤ) then
    m.val i.toNat j.toNat
  else 0

/-- Kernel of the first directional difference, `[[0,0,0],[0,1,0],[0,-1,0]]`. -/
def kernel_1 : ℕ → ℕ → ℝ := fun a b =>
  if a = 1 ∧ b = 1 then 1 else if a = 2 ∧ b = 1 then -1 else 0

/-- Kernel of the second directional difference, `[[0,0,0],[0,1,-1],[0,0,0]]`. -/
def kernel_2 : ℕ → ℕ → ℝ := fun a b =>
  if a = 1 ∧ b = 1 then 1 else if a = 1 ∧ b = 2 then -1 else 0

/-- The 5-point Laplacian kernel `[[0,1,0],[1,-4,1],[0,1,0]]`. -/
def laplacian_kernel : ℕ → ℕ → ℝ := fun a b =>
  if a = 1 ∧ b = 1 then -4
  else if (a = 0 ∧ b = 1) ∨ (a = 1 ∧ b = 0) ∨ (a = 1 ∧ b = 2) ∨ (a = 2 ∧ b = 1) then 1
  else 0

/-- `scipy.signal.convolve2d(m, k, mode=same)` for a 3x3 kernel `k`: true
(flipped) linear convolution, zero padded, output of the input shape.  The
nine taps of the kernel are written out explicitly: entry `(i, j)` is
the sum over `a b < 3` of `k a b * m[i+1-a, j+1-b]`. -/
def convolve2d_same (m : Grid ℝ) (k : ℕ → ℕ → ℝ) : Grid ℝ :=
  ⟨m.rows, m.cols, fun i j =>
    k 0 0 * get0 m ((i : ℤ) + 1) ((j : ℤ) + 1) +
    k 0 1 * get0 m ((i : ℤ) + 1) (j : ℤ) +
    k 0 2 * get0 m ((i : ℤ) + 1) ((j : ℤ) - 1) +
    k 1 0 * get0 m (i : ℤ) ((j : ℤ) + 1) +
    k 1 1 * get0 m (i : ℤ) (j : ℤ) +
    k 1 2 * get0 m (i : ℤ) ((j : ℤ) - 1) +
    k 2 0 * get0 m ((i : ℤ) - 1) ((j : ℤ) + 1) +
    k 2 1 * get0 m ((i : ℤ) - 1) (j : ℤ) +
    k 2 2 * get0 m ((i : ℤ) - 1) ((j : ℤ) - 1)⟩

/-- `scipy.signal.convolve2d(m, k, mode=valid)` for a 3x3 kernel: only the
positions whose full neighbourhood is inside the input; output is two rows and
two columns smaller; entry `(i, j)` is the sum of `k a b * m[i+2-a, j+2-b]`. -/
def convolve2d_valid (m : Grid ℝ) (k : ℕ → ℕ → ℝ) : Grid ℝ :=
  ⟨m.rows - 2, m.cols - 2, fun i j =>
    k 0 0 * m.val (i + 2) (j + 2) + k 0 1 * m.val (i + 2) (j + 1) +
    k 0 2 * m.val (i + 2) j +
    k 1 0 * m.val (i + 1) (j + 2) + k 1 1 * m.val (i + 1) (j + 1) +
    k 1 2 * m.val (i + 1) j +
    k 2 0 * m.val i (j + 2) + k 2 1 * m.val i (j + 1) + k 2 2 * m.val i j⟩

/-- Numpy slicing `[1:, :-1]` of a 2-D array. -/
def sliceDropFirstRowLastCol (m : Grid ℝ) : Grid ℝ :=
  ⟨m.rows - 1, m.cols - 1, fun i j => m.val (i + 1) j⟩

/-- Numpy slicing `[:-1, 1:]` of a 2-D array. -/
def sliceDropLastRowFirstCol (m : Grid ℝ) : Grid ℝ :=
  ⟨m.rows - 1, m.cols - 1, fun i j => m.val i (j + 1)⟩

/-- `np.square`, elementwise. -/
def npSquare (m : Grid ℝ) : Grid ℝ :=
  ⟨m.rows, m.cols, fun i j => (m.val i j) ^ 2⟩

/-- Elementwise sum of two arrays (shapes agree at every use site). -/
def gridAdd (m1 m2 : Grid ℝ) : Grid ℝ :=
  ⟨m1.rows, m1.cols, fun i j => m1.val i j + m2.val i j⟩

/-- `np.mean` over all entries of a 2-D array. -/
def npMean (m : Grid ℝ) : ℝ :=
  (∑ i ∈ Finset.range m.rows, ∑ j ∈ Finset.range m.cols, m.val i j) /
    ((m.rows * m.cols : ℕ) : ℝ)

/-- `np.std` (population standard deviation) over all entries. -/
def npStd (m : Grid ℝ) : ℝ :=
  Real.sqrt (npMean ⟨m.rows, m.cols, fun i j => (m.val i j - npMean m) ^ 2⟩)

/-- `compute_mean_squared_slope(input_array, delta_x)`: convolve with the two
directional kernels in same mode, crop `member_1` by `[1:, :-1]` and
`member_2` by `[:-1, 1:]`, then
`sqrt(mean(square(member_1) + square(member_2))) / (delta_x * sqrt(2))`. -/
def compute_mean_squared_slope (input_array : Grid ℝ) (delta_x : ℝ) : ℝ :=
  let member_1 := sliceDropFirstRowLastCol (convolve2d_same input_array kernel_1)
  let member_2 := sliceDropLastRowFirstCol (convolve2d_same input_array kernel_2)
  Real.sqrt (npMean (gridAdd (npSquare member_1) (npSquare member_2))) /
    (delta_x * Real.sqrt 2)

/-- A numpy float with its IEEE finiteness tag.  Needed where division by zero
matters: numpy float division by zero yields inf or nan with a RuntimeWarning
and does not raise. -/
inductive NpFloat where
  | fin (x : ℝ)
  | posInf
  | negInf
  | nan

/-- The real value of a finite `NpFloat`; junk value 0 for the non-finite
cases (only control flow, never this junk value, feeds later theorems on
non-finite paths). -/
def NpFloat.toReal : NpFloat → ℝ
  | .fin x => x
  | _ => 0

/-- Numpy float division: finite quotient when the divisor is nonzero,
otherwise signed infinity or nan according to the sign of the dividend. -/
def npDivFloat (a b : ℝ) : NpFloat :=
  if b ≠ 0 then .fin (a / b)
  else if 0 < a then .posInf
  else if a < 0 then .negInf
  else .nan

/-- `compute_typical_width(mu, elevation_standard_deviation)`:
`elevation_standard_deviation * np.sqrt(2) / mu`, with the numpy division
semantics made explicit. -/
def compute_typical_width (mu elevation_standard_deviation : ℝ) : NpFloat :=
  npDivFloat (elevation_standard_deviation * Real.sqrt 2) mu

/-- `compute_sky_view_factor(mu, xi, L)` with the hardcoded constants
a = 3.354688, b = 1.998767, c = 0.20286, d = 5.951:
`1 - (1 - 1 / ((1 + a * mu ** b) ** c)) * np.exp(-d * (L / xi) ** (-2))`. -/
def compute_sky_view_factor (mu xi L : ℝ) : ℝ :=
  let a : ℝ := 3.354688
  let b : ℝ := 1.998767
  let c : ℝ := 0.20286
  let d : ℝ := 5.951
  1 - (1 - 1 / ((1 + a * mu ^ b) ^ c)) * Real.exp (-d * (L / xi) ^ (-2 : ℤ))

/-- `compute_downscaling_factor(elevation_laplacian, mu)` with the hardcoded
constants 17.0393, 0.737, 1.0234, 0.3794, 1.9821; note the sum
`1 + d_prime + mu ** e_prime` in the denominator, exactly as in the source. -/
def compute_downscaling_factor (elevation_laplacian mu : ℝ) : ℝ :=
  let a_prime : ℝ := 17.0393
  let b_prime : ℝ := 0.737
  let c_prime : ℝ := 1.0234
  let d_prime : ℝ := 0.3794
  let e_prime : ℝ := 1.9821
  (1 - (a_prime * elevation_laplacian) / (1 + a_prime * |elevation_laplacian| ^ b_prime)) *
    c_prime / (1 + d_prime + mu ^ e_prime)

/-- Elementwise division of an array by a scalar. -/
def gridDivScalar (m : Grid ℝ) (x : ℝ) : Grid ℝ :=
  ⟨m.rows, m.cols, fun i j => m.val i j / x⟩

/-- `compute_elevation_laplacien(input_array, delta_x)`: valid convolution
with the 5-point kernel divided by `delta_x ** 2`, embedded into a full-size
array prefilled with nan (`none`) on the one-pixel border, then the whole
array multiplied by `delta_x / 4` (nan entries stay nan). -/
def compute_elevation_laplacien (input_array : Grid ℝ) (delta_x : ℝ) : Grid (Option ℝ) :=
  let nabla_z_array :=
    gridDivScalar (convolve2d_valid input_array laplacian_kernel) (delta_x ^ 2)
  let nabla_array_padded : Grid (Option ℝ) :=
    ⟨input_array.rows, input_array.cols, fun i j =>
      if 1 ≤ i ∧ i + 1 < input_array.rows ∧ 1 ≤ j ∧ j + 1 < input_array.cols then
        some (nabla_z_array.val (i - 1) (j - 1))
      else none⟩
  ⟨input_array.rows, input_array.cols, fun i j =>
    (nabla_array_padded.val i j).map (fun v => v * delta_x / 4)⟩

/-- Global DEM cell resolution of the reference run (meters). -/
def delta_x : ℝ := 20

/-- Global HRDPS cell resolution of the reference run (meters). -/
def L : ℝ := 2500

/-- Python slice bound normalization for an array extent `n`: a negative bound
counts from the end (clamped at 0), a nonnegative bound is clamped at `n`. -/
def pyBound (n : ℕ) (a : ℤ) : ℕ :=
  if a < 0 then ((n : ℤ) + a).toNat else min a.toNat n

/-- Python 2-D slicing `m[r0:r1, c0:c1]` with full Python semantics (negative
bounds wrap, out-of-range bounds clip, an inverted range is empty). -/
def pySub {α : Type} (m : Grid α) (r0 r1 c0 c1 : ℤ) : Grid α :=
  ⟨pyBound m.rows r1 - pyBound m.rows r0,
   pyBound m.cols c1 - pyBound m.cols c0,
   fun i j => m.val (pyBound m.rows r0 + i) (pyBound m.cols c0 + j)⟩

/-- A coarse cell, identified by the grid index of its centroid (the result of
`dem_raster.index(centroid.x, centroid.y)`; the geometry-to-index mapping is
owned by external collaborators and enters here as a pair of integers). -/
abbrev Cell := ℤ × ℤ

/-- `subset_array(full_array, center_coordinates)`:
`full_array[(c0 - 62):(c0 + 63), (c1 - 62):(c1 + 63)]`. -/
def subset_array {α : Type} (full_array : Grid α) (center_coordinates : Cell) : Grid α :=
  pySub full_array (center_coordinates.1 - 62) (center_coordinates.1 + 63)
    (center_coordinates.2 - 62) (center_coordinates.2 + 63)

/-- Numpy slice assignment of a scalar, `m[r0:r1, c0:c1] = v` (broadcast). -/
def setRectScalar {α : Type} (m : Grid α) (r0 r1 c0 c1 : ℤ) (v : α) : Grid α :=
  ⟨m.rows, m.cols, fun i j =>
    if pyBound m.rows r0 ≤ i ∧ i < pyBound m.rows r1 ∧
       pyBound m.cols c0 ≤ j ∧ j < pyBound m.cols c1 then v
    else m.val i j⟩

/-- Numpy slice assignment of an array of matching shape,
`m[r0:r1, c0:c1] = sub` (at every use site below the shapes agree, because the
same slices are applied to arrays of identical shape). -/
def setRectBlock {α : Type} (m : Grid α) (r0 r1 c0 c1 : ℤ) (sub : Grid α) : Grid α :=
  ⟨m.rows, m.cols, fun i j =>
    if pyBound m.rows r0 ≤ i ∧ i < pyBound m.rows r1 ∧
       pyBound m.cols c0 ≤ j ∧ j < pyBound m.cols c1 then
      sub.val (i - pyBound m.rows r0) (j - pyBound m.cols c0)
    else m.val i j⟩

/-- A Python variable that holds either a numpy array or the plain integer
sentinel -999 (the raster-mode accumulators take both values). -/
inductive PyVal where
  | arr (m : Grid (Option ℝ))
  | int (z : ℤ)

/-- Pixel read from a `PyVal`: an array yields its entry, the integer sentinel
has no pixels. -/
def PyVal.getPixel : PyVal → ℕ → ℕ → Option ℝ
  | .arr m, i, j => m.val i j
  | .int _, _, _ => none

/-- `sky_view_factor_processing_wrapper(dem_raster, gdf_row)` (attribute
mode): extract the 25x25 window around the centroid index, compute mu, xi and
F_sky, return the populated row.  On the modelled numpy semantics no statement
of the try body raises (slicing clips silently; degenerate divisions return
non-finite floats with a RuntimeWarning), so the bare except branch that would
return the nan row (`none`) is unreachable. -/
def sky_view_factor_processing_wrapper (dem_array : Grid ℝ) (gdf_row : Cell) :
    Option (ℝ × NpFloat × ℝ) :=
  let array_coords := gdf_row
  let array_subset := pySub dem_array (array_coords.1 - 12) (array_coords.1 + 13)
    (array_coords.2 - 12) (array_coords.2 + 13)
  let mu := compute_mean_squared_slope array_subset delta_x
  let xi := compute_typical_width mu (npStd dem_array)
  let F_sky := compute_sky_view_factor mu xi.toReal L
  some (mu, xi, F_sky)

/-- `downscaling_parameters_processing_wrapper(gdf_row, dem_raster, F_array,
X_array, nabla_array)` (raster mode).  Before the try block: 125x125 subsets
of the DEM and of the Laplacian array, mu over the DEM subset, xi from the
global standard deviation.  Inside the try block: the scalar F_sky, the
vectorized downscaling factor over the Laplacian subset (np.vectorize raises
ValueError on a size-0 subset), and the two slice assignments (a TypeError if
an accumulator is the integer sentinel).  Any exception of the try block is
converted to the return value `(-999, -999)`. -/
def downscaling_parameters_processing_wrapper (gdf_row : Cell) (dem_array : Grid ℝ)
    (F_array X_array : PyVal) (nabla_array : Grid (Option ℝ)) : PyVal × PyVal :=
  let array_coords := gdf_row
  let dem_array_subset := subset_array dem_array array_coords
  let nabla_array_subset := subset_array nabla_array array_coords
  let mu := compute_mean_squared_slope dem_array_subset delta_x
  let xi := compute_typical_width mu (npStd dem_array)
  let F_sky := compute_sky_view_factor mu xi.toReal L
  if nabla_array_subset.rows * nabla_array_subset.cols = 0 then
    (.int (-999), .int (-999))
  else
    match F_array, X_array with
    | .arr Fm, .arr Xm =>
        let X_dsc_topo_subarray : Grid (Option ℝ) :=
          ⟨nabla_array_subset.rows, nabla_array_subset.cols, fun i j =>
            (nabla_array_subset.val i j).map (fun v => compute_downscaling_factor v mu)⟩
        (.arr (setRectScalar Fm (array_coords.1 - 62) (array_coords.1 + 63)
            (array_coords.2 - 62) (array_coords.2 + 63) (some F_sky)),
         .arr (setRectBlock Xm (array_coords.1 - 62) (array_coords.1 + 63)
            (array_coords.2 - 62) (array_coords.2 + 63) X_dsc_topo_subarray))
    | _, _ => (.int (-999), .int (-999))

/-- The raster-mode driver loop: initialize both output rasters to all-nan
arrays of the DEM shape, compute the Laplacian array once, then fold the
wrapper over the cells in collection order, reassigning both accumulators to
whatever pair the wrapper returns. -/
def raster_mode_driver (dem_array : Grid ℝ) (hrdps_cells : List Cell) : PyVal × PyVal :=
  let F_array : Grid (Option ℝ) := ⟨dem_array.rows, dem_array.cols, fun _ _ => none⟩
  let X_array : Grid (Option ℝ) := ⟨dem_array.rows, dem_array.cols, fun _ _ => none⟩
  let nabla_array := compute_elevation_laplacien dem_array delta_x
  hrdps_cells.foldl
    (fun FX c_row =>
      downscaling_parameters_processing_wrapper c_row dem_array FX.1 FX.2 nabla_array)
    (.arr F_array, .arr X_array)

/-- The mean squared slope a raster-mode cell computes: mu over its 125x125
DEM subset with the global resolution. -/
def cellMu (dem_array : Grid ℝ) (c : Cell) : ℝ :=
  compute_mean_squared_slope (subset_array dem_array c) delta_x

/-- The typical width a raster-mode cell computes, from the global standard
deviation of the whole DEM. -/
def cellXi (dem_array : Grid ℝ) (c : Cell) : NpFloat :=
  compute_typical_width (cellMu dem_array c) (npStd dem_array)

/-- The scalar sky view factor a raster-mode cell writes into its sub-block. -/
def cellFsky (dem_array : Grid ℝ) (c : Cell) : ℝ :=
  compute_sky_view_factor (cellMu dem_array c) (cellXi dem_array c).toReal L

/-- The elementwise downscaling-factor block a raster-mode cell writes: the
vectorized `compute_downscaling_factor` over its subset of the Laplacian
array, nan (`none`) entries propagating to nan. -/
def cellXsub (dem_array : Grid ℝ) (c : Cell) : Grid (Option ℝ) :=
  let nab := subset_array (compute_elevation_laplacien dem_array delta_x) c
  ⟨nab.rows, nab.cols, fun i j =>
    (nab.val i j).map (fun v => compute_downscaling_factor v (cellMu dem_array c))⟩

/-- The effect on the F raster of a successful raster-mode cell. -/
def writeF (dem_array : Grid ℝ) (c : Cell) (F : Grid (Option ℝ)) : Grid (Option ℝ) :=
  setRectScalar F (c.1 - 62) (c.1 + 63) (c.2 - 62) (c.2 + 63)
    (some (cellFsky dem_array c))

/-- The effect on the X raster of a successful raster-mode cell. -/
def writeX (dem_array : Grid ℝ) (c : Cell) (X : Grid (Option ℝ)) : Grid (Option ℝ) :=
  setRectBlock X (c.1 - 62) (c.1 + 63) (c.2 - 62) (c.2 + 63) (cellXsub dem_array c)

/-- The F raster after a list of successful cells, in order. -/
def mosaicF (dem_array : Grid ℝ) (cells : List Cell) (F : Grid (Option ℝ)) :
    Grid (Option ℝ) :=
  cells.foldl (fun A c => writeF dem_array c A) F

/-- The X raster after a list of successful cells, in order. -/
def mosaicX (dem_array : Grid ℝ) (cells : List Cell) (X : Grid (Option ℝ)) :
    Grid (Option ℝ) :=
  cells.foldl (fun A c => writeX dem_array c A) X

/-- A raster-mode cell processes successfully exactly when its 125x125 subset
is nonempty in both dimensions (an empty subset makes `np.vectorize` raise
inside the try block). -/
def succeeds (dem_array : Grid ℝ) (c : Cell) : Prop :=
  (subset_array dem_array c).rows ≠ 0 ∧ (subset_array dem_array c).cols ≠ 0

/-- Pixel `p` of a raster of the DEM shape lies in the sub-block that cell `c`
writes. -/
def covers (dem_array : Grid ℝ) (c : Cell) (p : ℕ × ℕ) : Prop :=
  pyBound dem_array.rows (c.1 - 62) ≤ p.1 ∧ p.1 < pyBound dem_array.rows (c.1 + 63) ∧
  pyBound dem_array.cols (c.2 - 62) ≤ p.2 ∧ p.2 < pyBound dem_array.cols (c.2 + 63)

/-- The entry of the X block of cell `c` that lands on raster pixel `p`. -/
def cellXval (dem_array : Grid ℝ) (c : Cell) (p : ℕ × ℕ) : Option ℝ :=
  (cellXsub dem_array c).val (p.1 - pyBound dem_array.rows (c.1 - 62))
    (p.2 - pyBound dem_array.cols (c.2 - 62))

/-- A 300x300 DEM with a uniform unit ramp along the row index. -/
def demRamp : Grid ℝ := ⟨300, 300, fun i _ => (i : ℝ)⟩

/-- A 40x40 DEM with a uniform unit ramp along the row index. -/
def demRamp40 : Grid ℝ := ⟨40, 40, fun i _ => (i : ℝ)⟩

/-- A 3x3 DEM with a uniform unit ramp along the row index. -/
def demRamp3 : Grid ℝ := ⟨3, 3, fun i _ => (i : ℝ)⟩

/-- A 25x25 DEM of constant elevation. -/
def demFlat : Grid ℝ := ⟨25, 25, fun _ _ => (1000 : ℝ)⟩

lemma convolve2d_same_rows (m : Grid ℝ) (k : ℕ → ℕ → ℝ) :
    (convolve2d_same m k).rows = m.rows := rfl

lemma convolve2d_same_cols (m : Grid ℝ) (k : ℕ → ℕ → ℝ) :
    (convolve2d_same m k).cols = m.cols := rfl

lemma get0_coe (m : Grid ℝ) (i j : ℕ) (hi : i < m.rows) (hj : j < m.cols) :
    get0 m i j = m.val i j := by
  simp [get0, hi, hj]

/-- The `[1:, :-1]` crop of the first directional convolution reads only
in-bounds elevations: it is the plain forward difference along axis 0. -/
lemma convolve_k1_val (m : Grid ℝ) (i j : ℕ) (hi : i + 1 < m.rows) (hj : j < m.cols) :
    (convolve2d_same m kernel_1).val (i + 1) j = m.val (i + 1) j - m.val i j := by
  have h1 : ((i : ℕ) : ℤ) + 1 = ((i + 1 : ℕ) : ℤ) := by push_cast; ring
  simp only [convolve2d_same, kernel_1]
  norm_num
  rw [h1, get0_coe m (i + 1) j hi hj, get0_coe m i j (by omega) hj]
  ring

/-- The `[:-1, 1:]` crop of the second directional convolution reads only
in-bounds elevations: it is the plain forward difference along axis 1. -/
lemma convolve_k2_val (m : Grid ℝ) (i j : ℕ) (hi : i < m.rows) (hj : j + 1 < m.cols) :
    (convolve2d_same m kernel_2).val i (j + 1) = m.val i (j + 1) - m.val i j := by
  have h1 : ((j : ℕ) : ℤ) + 1 = ((j + 1 : ℕ) : ℤ) := by push_cast; ring
  simp only [convolve2d_same, kernel_2]
  norm_num
  rw [h1, get0_coe m i (j + 1) hi hj, get0_coe m i j hi (by omega)]
  ring

/-- Closed form of `compute_mean_squared_slope`: after the documented crops,
every retained kernel response is a forward difference of two in-window
elevations; no padded value is consumed. -/
lemma compute_mean_squared_slope_eq_sum (m : Grid ℝ) (dx : ℝ) :
    compute_mean_squared_slope m dx =
      Real.sqrt ((∑ i ∈ Finset.range (m.rows - 1), ∑ j ∈ Finset.range (m.cols - 1),
          ((m.val (i + 1) j - m.val i j) ^ 2 + (m.val i (j + 1) - m.val i j) ^ 2)) /
        (((m.rows - 1) * (m.cols - 1) : ℕ) : ℝ)) / (dx * Real.sqrt 2) := by
  simp only [compute_mean_squared_slope, npMean, gridAdd, npSquare,
    sliceDropFirstRowLastCol, sliceDropLastRowFirstCol,
    convolve2d_same_rows, convolve2d_same_cols]
  have hsum :
      (∑ i ∈ Finset.range (m.rows - 1), ∑ j ∈ Finset.range (m.cols - 1),
        (((convolve2d_same m kernel_1).val (i + 1) j) ^ 2 +
         ((convolve2d_same m kernel_2).val i (j + 1)) ^ 2)) =
      (∑ i ∈ Finset.range (m.rows - 1), ∑ j ∈ Finset.range (m.cols - 1),
        ((m.val (i + 1) j - m.val i j) ^ 2 + (m.val i (j + 1) - m.val i j) ^ 2)) := by
    refine Finset.sum_congr rfl fun i hi => Finset.sum_congr rfl fun j hj => ?_
    have hi' := Finset.mem_range.mp hi
    have hj' := Finset.mem_range.mp hj
    rw [convolve_k1_val m i j (by omega) (by omega),
      convolve_k2_val m i j (by omega) (by omega)]
  rw [hsum]

/-- A window of constant elevation has mean squared slope exactly 0. -/
lemma compute_mean_squared_slope_const (m : Grid ℝ) (cst dx : ℝ)
    (h : ∀ i j, i < m.rows → j < m.cols → m.val i j = cst) :
    compute_mean_squared_slope m dx = 0 := by
  rw [compute_mean_squared_slope_eq_sum]
  have hz :
      (∑ i ∈ Finset.range (m.rows - 1), ∑ j ∈ Finset.range (m.cols - 1),
        ((m.val (i + 1) j - m.val i j) ^ 2 + (m.val i (j + 1) - m.val i j) ^ 2)) = 0 := by
    refine Finset.sum_eq_zero fun i hi => Finset.sum_eq_zero fun j hj => ?_
    have hi' := Finset.mem_range.mp hi
    have hj' := Finset.mem_range.mp hj
    rw [h (i + 1) j (by omega) (by omega), h i j (by omega) (by omega),
      h i (j + 1) (by omega) (by omega)]
    ring
  rw [hz]
  simp

/-- A window affine in the row index, elevation `s * i + t`, has mean squared
slope `abs s / (dx * sqrt 2)`, independent of the window size. -/
lemma compute_mean_squared_slope_affine (m : Grid ℝ) (s t dx : ℝ)
    (h : ∀ i j, i < m.rows → j < m.cols → m.val i j = s * i + t)
    (hr : 2 ≤ m.rows) (hc : 2 ≤ m.cols) :
    compute_mean_squared_slope m dx = |s| / (dx * Real.sqrt 2) := by
  rw [compute_mean_squared_slope_eq_sum]
  have hsum :
      (∑ i ∈ Finset.range (m.rows - 1), ∑ j ∈ Finset.range (m.cols - 1),
        ((m.val (i + 1) j - m.val i j) ^ 2 + (m.val i (j + 1) - m.val i j) ^ 2)) =
      (((m.rows - 1) * (m.cols - 1) : ℕ) : ℝ) * s ^ 2 := by
    have hterm :
        (∑ i ∈ Finset.range (m.rows - 1), ∑ j ∈ Finset.range (m.cols - 1),
          ((m.val (i + 1) j - m.val i j) ^ 2 + (m.val i (j + 1) - m.val i j) ^ 2)) =
        (∑ _i ∈ Finset.range (m.rows - 1), ∑ _j ∈ Finset.range (m.cols - 1), s ^ 2) := by
      refine Finset.sum_congr rfl fun i hi => Finset.sum_congr rfl fun j hj => ?_
      have hi' := Finset.mem_range.mp hi
      have hj' := Finset.mem_range.mp hj
      rw [h (i + 1) j (by omega) (by omega), h i j (by omega) (by omega),
        h i (j + 1) (by omega) (by omega)]
      push_cast
      ring
    rw [hterm]
    simp [Finset.sum_const, Finset.card_range, nsmul_eq_mul]
    ring
  rw [hsum]
  have hcount : (((m.rows - 1) * (m.cols - 1) : ℕ) : ℝ) ≠ 0 := by
    have : 0 < (m.rows - 1) * (m.cols - 1) := by
      have : 0 < m.rows - 1 := by omega
      have : 0 < m.cols - 1 := by omega
      positivity
    positivity
  rw [mul_comm, mul_div_assoc, div_self hcount, mul_one, Real.sqrt_sq_eq_abs]

lemma laplacien_rows (dem : Grid ℝ) (dx : ℝ) :
    (compute_elevation_laplacien dem dx).rows = dem.rows := rfl

lemma laplacien_cols (dem : Grid ℝ) (dx : ℝ) :
    (compute_elevation_laplacien dem dx).cols = dem.cols := rfl

lemma subset_laplacien_rows (dem : Grid ℝ) (dx : ℝ) (c : Cell) :
    (subset_array (compute_elevation_laplacien dem dx) c).rows =
      (subset_array dem c).rows := rfl

lemma subset_laplacien_cols (dem : Grid ℝ) (dx : ℝ) (c : Cell) :
    (subset_array (compute_elevation_laplacien dem dx) c).cols =
      (subset_array dem c).cols := rfl

/-- A successful raster-mode cell (nonempty subset, array-valued accumulators)
writes its two sub-blocks and returns the updated arrays. -/
lemma wrapper_arr_success (dem : Grid ℝ) (c : Cell) (F X : Grid (Option ℝ))
    (h : succeeds dem c) :
    downscaling_parameters_processing_wrapper c dem (.arr F) (.arr X)
      (compute_elevation_laplacien dem delta_x) =
    (.arr (writeF dem c F), .arr (writeX dem c X)) := by
  obtain ⟨h1, h2⟩ := h
  have hne : ¬ ((subset_array (compute_elevation_laplacien dem delta_x) c).rows *
      (subset_array (compute_elevation_laplacien dem delta_x) c).cols = 0) := by
    rw [subset_laplacien_rows, subset_laplacien_cols]
    exact Nat.mul_ne_zero h1 h2
  simp only [downscaling_parameters_processing_wrapper, if_neg hne]
  rfl

/-- A raster-mode cell whose subset is empty makes the try block raise
(np.vectorize on size-0 input), so the wrapper returns the sentinel pair,
whatever the accumulators held. -/
lemma wrapper_failure (dem : Grid ℝ) (c : Cell) (F X : PyVal)
    (h : ¬ succeeds dem c) :
    downscaling_parameters_processing_wrapper c dem F X
      (compute_elevation_laplacien dem delta_x) = (.int (-999), .int (-999)) := by
  have hz : (subset_array (compute_elevation_laplacien dem delta_x) c).rows *
      (subset_array (compute_elevation_laplacien dem delta_x) c).cols = 0 := by
    rw [subset_laplacien_rows, subset_laplacien_cols, Nat.mul_eq_zero]
    by_contra hcon
    push_neg at hcon
    exact h ⟨hcon.1, hcon.2⟩
  simp only [downscaling_parameters_processing_wrapper, if_pos hz]

/-- When every cell of the list succeeds, the raster-mode fold starting from
array accumulators refines the pure per-grid mosaics. -/
lemma foldl_wrapper_success (dem : Grid ℝ) (cells : List Cell)
    (hall : ∀ c ∈ cells, succeeds dem c) (F X : Grid (Option ℝ)) :
    cells.foldl
      (fun FX c_row => downscaling_parameters_processing_wrapper c_row dem FX.1 FX.2
        (compute_elevation_laplacien dem delta_x))
      (.arr F, .arr X) =
    (.arr (mosaicF dem cells F), .arr (mosaicX dem cells X)) := by
  induction cells generalizing F X with
  | nil => simp [mosaicF, mosaicX]
  | cons c cs ih =>
      simp only [List.foldl_cons]
      rw [wrapper_arr_success dem c F X (hall c (by simp))]
      rw [ih (fun cl hcl => hall cl (by simp [hcl])) (writeF dem c F) (writeX dem c X)]
      simp [mosaicF, mosaicX]

/-- When every cell succeeds, the raster-mode driver produces the two mosaics
built over the all-nan initial rasters. -/
lemma raster_mode_driver_success (dem : Grid ℝ) (cells : List Cell)
    (hall : ∀ c ∈ cells, succeeds dem c) :
    raster_mode_driver dem cells =
      (.arr (mosaicF dem cells ⟨dem.rows, dem.cols, fun _ _ => none⟩),
       .arr (mosaicX dem cells ⟨dem.rows, dem.cols, fun _ _ => none⟩)) := by
  simp only [raster_mode_driver]
  exact foldl_wrapper_success dem cells hall _ _

lemma writeF_rows (dem : Grid ℝ) (c : Cell) (F : Grid (Option ℝ)) :
    (writeF dem c F).rows = F.rows := rfl

lemma writeF_cols (dem : Grid ℝ) (c : Cell) (F : Grid (Option ℝ)) :
    (writeF dem c F).cols = F.cols := rfl

lemma writeX_rows (dem : Grid ℝ) (c : Cell) (X : Grid (Option ℝ)) :
    (writeX dem c X).rows = X.rows := rfl

lemma writeX_cols (dem : Grid ℝ) (c : Cell) (X : Grid (Option ℝ)) :
    (writeX dem c X).cols = X.cols := rfl

lemma mosaicF_rows (dem : Grid ℝ) (cells : List Cell) (F : Grid (Option ℝ)) :
    (mosaicF dem cells F).rows = F.rows := by
  induction cells generalizing F with
  | nil => rfl
  | cons c cs ih => simpa [mosaicF] using ih (writeF dem c F)

lemma mosaicF_cols (dem : Grid ℝ) (cells : List Cell) (F : Grid (Option ℝ)) :
    (mosaicF dem cells F).cols = F.cols := by
  induction cells generalizing F with
  | nil => rfl
  | cons c cs ih => simpa [mosaicF] using ih (writeF dem c F)

lemma mosaicX_rows (dem : Grid ℝ) (cells : List Cell) (X : Grid (Option ℝ)) :
    (mosaicX dem cells X).rows = X.rows := by
  induction cells generalizing X with
  | nil => rfl
  | cons c cs ih => simpa [mosaicX] using ih (writeX dem c X)

lemma mosaicX_cols (dem : Grid ℝ) (cells : List Cell) (X : Grid (Option ℝ)) :
    (mosaicX dem cells X).cols = X.cols := by
  induction cells generalizing X with
  | nil => rfl
  | cons c cs ih => simpa [mosaicX] using ih (writeX dem c X)

lemma writeF_val_covered (dem : Grid ℝ) (c : Cell) (F : Grid (Option ℝ)) (p : ℕ × ℕ)
    (hrw : F.rows = dem.rows) (hcw : F.cols = dem.cols) (hc : covers dem c p) :
    (writeF dem c F).val p.1 p.2 = some (cellFsky dem c) := by
  obtain ⟨h1, h2, h3, h4⟩ := hc
  simp only [writeF, setRectScalar, hrw, hcw]
  rw [if_pos ⟨h1, h2, h3, h4⟩]

lemma writeF_val_not_covered (dem : Grid ℝ) (c : Cell) (F : Grid (Option ℝ)) (p : ℕ × ℕ)
    (hrw : F.rows = dem.rows) (hcw : F.cols = dem.cols) (hnc : ¬ covers dem c p) :
    (writeF dem c F).val p.1 p.2 = F.val p.1 p.2 := by
  simp only [covers] at hnc
  simp only [writeF, setRectScalar, hrw, hcw]
  rw [if_neg hnc]

lemma writeX_val_covered (dem : Grid ℝ) (c : Cell) (X : Grid (Option ℝ)) (p : ℕ × ℕ)
    (hrw : X.rows = dem.rows) (hcw : X.cols = dem.cols) (hc : covers dem c p) :
    (writeX dem c X).val p.1 p.2 = cellXval dem c p := by
  obtain ⟨h1, h2, h3, h4⟩ := hc
  simp only [writeX, setRectBlock, hrw, hcw]
  rw [if_pos ⟨h1, h2, h3, h4⟩]
  rfl

lemma writeX_val_not_covered (dem : Grid ℝ) (c : Cell) (X : Grid (Option ℝ)) (p : ℕ × ℕ)
    (hrw : X.rows = dem.rows) (hcw : X.cols = dem.cols) (hnc : ¬ covers dem c p) :
    (writeX dem c X).val p.1 p.2 = X.val p.1 p.2 := by
  simp only [covers] at hnc
  simp only [writeX, setRectBlock, hrw, hcw]
  rw [if_neg hnc]

lemma mosaicF_val_not_covered (dem : Grid ℝ) (cells : List Cell) (F : Grid (Option ℝ))
    (p : ℕ × ℕ) (hrw : F.rows = dem.rows) (hcw : F.cols = dem.cols)
    (h : ∀ c ∈ cells, ¬ covers dem c p) :
    (mosaicF dem cells F).val p.1 p.2 = F.val p.1 p.2 := by
  induction cells generalizing F with
  | nil => rfl
  | cons c cs ih =>
      have step : mosaicF dem (c :: cs) F = mosaicF dem cs (writeF dem c F) := by
        simp [mosaicF]
      rw [step, ih (writeF dem c F) (by rw [writeF_rows, hrw]) (by rw [writeF_cols, hcw])
        (fun x hx => h x (by simp [hx]))]
      exact writeF_val_not_covered dem c F p hrw hcw (h c (by simp))

lemma mosaicX_val_not_covered (dem : Grid ℝ) (cells : List Cell) (X : Grid (Option ℝ))
    (p : ℕ × ℕ) (hrw : X.rows = dem.rows) (hcw : X.cols = dem.cols)
    (h : ∀ c ∈ cells, ¬ covers dem c p) :
    (mosaicX dem cells X).val p.1 p.2 = X.val p.1 p.2 := by
  induction cells generalizing X with
  | nil => rfl
  | cons c cs ih =>
      have step : mosaicX dem (c :: cs) X = mosaicX dem cs (writeX dem c X) := by
        simp [mosaicX]
      rw [step, ih (writeX dem c X) (by rw [writeX_rows, hrw]) (by rw [writeX_cols, hcw])
        (fun x hx => h x (by simp [hx]))]
      exact writeX_val_not_covered dem c X p hrw hcw (h c (by simp))

/-- In a pure F mosaic the pixel value comes from the last covering cell. -/
lemma mosaicF_last_writer (dem : Grid ℝ) (l1 l2 : List Cell) (c : Cell)
    (F : Grid (Option ℝ)) (p : ℕ × ℕ)
    (hrw : F.rows = dem.rows) (hcw : F.cols = dem.cols)
    (hc : covers dem c p) (hl2 : ∀ x ∈ l2, ¬ covers dem x p) :
    (mosaicF dem (l1 ++ c :: l2) F).val p.1 p.2 = some (cellFsky dem c) := by
  have split : mosaicF dem (l1 ++ c :: l2) F =
      mosaicF dem l2 (writeF dem c (mosaicF dem l1 F)) := by
    simp [mosaicF, List.foldl_append]
  have hr1 : (mosaicF dem l1 F).rows = dem.rows := by rw [mosaicF_rows, hrw]
  have hc1 : (mosaicF dem l1 F).cols = dem.cols := by rw [mosaicF_cols, hcw]
  rw [split,
    mosaicF_val_not_covered dem l2 _ p (by rw [writeF_rows]; exact hr1)
      (by rw [writeF_cols]; exact hc1) hl2,
    writeF_val_covered dem c _ p hr1 hc1 hc]

/-- In a pure X mosaic the pixel value comes from the last covering cell. -/
lemma mosaicX_last_writer (dem : Grid ℝ) (l1 l2 : List Cell) (c : Cell)
    (X : Grid (Option ℝ)) (p : ℕ × ℕ)
    (hrw : X.rows = dem.rows) (hcw : X.cols = dem.cols)
    (hc : covers dem c p) (hl2 : ∀ x ∈ l2, ¬ covers dem x p) :
    (mosaicX dem (l1 ++ c :: l2) X).val p.1 p.2 = cellXval dem c p := by
  have split : mosaicX dem (l1 ++ c :: l2) X =
      mosaicX dem l2 (writeX dem c (mosaicX dem l1 X)) := by
    simp [mosaicX, List.foldl_append]
  have hr1 : (mosaicX dem l1 X).rows = dem.rows := by rw [mosaicX_rows, hrw]
  have hc1 : (mosaicX dem l1 X).cols = dem.cols := by rw [mosaicX_cols, hcw]
  rw [split,
    mosaicX_val_not_covered dem l2 _ p (by rw [writeX_rows]; exact hr1)
      (by rw [writeX_cols]; exact hc1) hl2,
    writeX_val_covered dem c _ p hr1 hc1 hc]

/-- Claim C5: for mu ge 0, xi gt 0 and L gt 0, `compute_sky_view_factor`
returns exactly 1 - (1 - (1 + a mu^b)^(-c)) exp(-d (L/xi)^(-2)) with the
fixed constants a = 3.354688, b = 1.998767, c = 0.20286, d = 5.951. -/
theorem c5_sky_view_factor_formula (mu xi Lc : ℝ)
    (hmu : 0 ≤ mu) (hxi : 0 < xi) (hL : 0 < Lc) :
    compute_sky_view_factor mu xi Lc =
      1 - (1 - (1 + 3.354688 * mu ^ (1.998767 : ℝ)) ^ (-(0.20286 : ℝ))) *
        Real.exp (-5.951 * (Lc / xi) ^ (-2 : ℤ)) := by
  have h1 : (0 : ℝ) ≤ mu ^ (1.998767 : ℝ) := Real.rpow_nonneg hmu _
  have hbase : (0 : ℝ) ≤ 1 + 3.354688 * mu ^ (1.998767 : ℝ) := by linarith
  simp only [compute_sky_view_factor]
  rw [Real.rpow_neg hbase, one_div]

theorem c5_sky_view_factor_formula_witness :
    compute_sky_view_factor 1 2 3 =
      1 - (1 - (1 + 3.354688 * (1 : ℝ) ^ (1.998767 : ℝ)) ^ (-(0.20286 : ℝ))) *
        Real.exp (-5.951 * ((3 : ℝ) / 2) ^ (-2 : ℤ)) :=
  c5_sky_view_factor_formula 1 2 3 (by norm_num) (by norm_num) (by norm_num)

/-- Claim C6: for every Laplacian value and every mu ge 0,
`compute_downscaling_factor` returns exactly
(1 - a2 z / (1 + a2 abs z ^ b2)) c2 / (1 + d2 + mu ^ e2), the denominator
being the sum 1 + d2 + mu^e2, with the fixed constants a2 = 17.0393,
b2 = 0.737, c2 = 1.0234, d2 = 0.3794, e2 = 1.9821. -/
theorem c6_downscaling_factor_formula (lap mu : ℝ) (hmu : 0 ≤ mu) :
    compute_downscaling_factor lap mu =
      (1 - 17.0393 * lap / (1 + 17.0393 * |lap| ^ (0.737 : ℝ))) *
        (1.0234 / (1 + 0.3794 + mu ^ (1.9821 : ℝ))) := by
  simp only [compute_downscaling_factor]
  ring

theorem c6_downscaling_factor_formula_witness :
    compute_downscaling_factor 1 0 =
      (1 - 17.0393 * 1 / (1 + 17.0393 * |(1 : ℝ)| ^ (0.737 : ℝ))) *
        (1.0234 / (1 + 0.3794 + (0 : ℝ) ^ (1.9821 : ℝ))) :=
  c6_downscaling_factor_formula 1 0 (by norm_num)

/-- For a nonzero xi the negative-power factor of the sky view factor is the
squared aspect ratio xi^2 / L^2. -/
lemma compute_sky_view_factor_eq (mu xi Lc : ℝ) (hxi : xi ≠ 0) :
    compute_sky_view_factor mu xi Lc =
      1 - (1 - 1 / (1 + 3.354688 * mu ^ (1.998767 : ℝ)) ^ (0.20286 : ℝ)) *
        Real.exp (-5.951 * (xi ^ 2 / Lc ^ 2)) := by
  have hz : (Lc / xi) ^ (-2 : ℤ) = xi ^ 2 / Lc ^ 2 := by
    rw [zpow_neg, div_zpow, inv_div, zpow_ofNat, zpow_ofNat]
  simp only [compute_sky_view_factor]
  rw [hz]

/-- Claim C7: for fixed mu gt 0 and L gt 0, the sky view factor is monotone
non-decreasing in xi over xi gt 0, and its value lies in the interval
(0, 1]. -/
theorem c7_svf_monotone_bounded (mu Lc xi1 xi2 : ℝ)
    (hmu : 0 < mu) (hL : 0 < Lc) (h1 : 0 < xi1) (h12 : xi1 ≤ xi2) :
    compute_sky_view_factor mu xi1 Lc ≤ compute_sky_view_factor mu xi2 Lc ∧
    0 < compute_sky_view_factor mu xi1 Lc ∧
    compute_sky_view_factor mu xi1 Lc ≤ 1 := by
  have h2 : 0 < xi2 := lt_of_lt_of_le h1 h12
  have hBgt : 1 < 1 + 3.354688 * mu ^ (1.998767 : ℝ) := by
    have := Real.rpow_pos_of_pos hmu (1.998767 : ℝ)
    nlinarith
  have hB0 : (0 : ℝ) < 1 + 3.354688 * mu ^ (1.998767 : ℝ) := lt_trans one_pos hBgt
  have hBc : 1 < (1 + 3.354688 * mu ^ (1.998767 : ℝ)) ^ (0.20286 : ℝ) := by
    rw [Real.one_lt_rpow_iff_of_pos hB0]
    exact Or.inl ⟨hBgt, by norm_num⟩
  have hBc0 : (0 : ℝ) < (1 + 3.354688 * mu ^ (1.998767 : ℝ)) ^ (0.20286 : ℝ) :=
    Real.rpow_pos_of_pos hB0 _
  have hP0 : 0 < 1 - 1 / (1 + 3.354688 * mu ^ (1.998767 : ℝ)) ^ (0.20286 : ℝ) := by
    have : 1 / (1 + 3.354688 * mu ^ (1.998767 : ℝ)) ^ (0.20286 : ℝ) < 1 := by
      rw [div_lt_one hBc0]; exact hBc
    linarith
  have hP1 : 1 - 1 / (1 + 3.354688 * mu ^ (1.998767 : ℝ)) ^ (0.20286 : ℝ) < 1 := by
    have : 0 < 1 / (1 + 3.354688 * mu ^ (1.998767 : ℝ)) ^ (0.20286 : ℝ) := by positivity
    linarith
  have hE1 : (0 : ℝ) < Real.exp (-5.951 * (xi1 ^ 2 / Lc ^ 2)) := Real.exp_pos _
  have hE2 : (0 : ℝ) < Real.exp (-5.951 * (xi2 ^ 2 / Lc ^ 2)) := Real.exp_pos _
  have hE1lt : Real.exp (-5.951 * (xi1 ^ 2 / Lc ^ 2)) < 1 := by
    rw [Real.exp_lt_one_iff]
    have : 0 < xi1 ^ 2 / Lc ^ 2 := by positivity
    nlinarith
  have hEmono : Real.exp (-5.951 * (xi2 ^ 2 / Lc ^ 2)) ≤
      Real.exp (-5.951 * (xi1 ^ 2 / Lc ^ 2)) := by
    rw [Real.exp_le_exp]
    have hsq : xi1 ^ 2 ≤ xi2 ^ 2 := by nlinarith
    have hd : xi1 ^ 2 / Lc ^ 2 ≤ xi2 ^ 2 / Lc ^ 2 := by gcongr
    nlinarith
  rw [compute_sky_view_factor_eq mu xi1 Lc (ne_of_gt h1),
    compute_sky_view_factor_eq mu xi2 Lc (ne_of_gt h2)]
  refine ⟨?_, ?_, ?_⟩
  · nlinarith [mul_le_mul_of_nonneg_left hEmono hP0.le]
  · nlinarith [hP0, hP1, hE1, hE1lt]
  · exact sub_le_self 1 (mul_nonneg hP0.le hE1.le)

theorem c7_svf_monotone_bounded_witness :
    compute_sky_view_factor 1 1 1 ≤ compute_sky_view_factor 1 2 1 ∧
    0 < compute_sky_view_factor 1 1 1 ∧ compute_sky_view_factor 1 1 1 ≤ 1 :=
  c7_svf_monotone_bounded 1 1 1 2 (by norm_num) (by norm_num) (by norm_num) (by norm_num)

/-- Claim C2, evaluated at the failing input: a constant window does give
mu = 0 exactly, but `compute_typical_width` at mu = 0 (with unit standard
deviation) returns positive infinity from the numpy division by zero; the
source defines no DegenerateSlope error and raises nothing. -/
theorem c2_flat_window_typical_width_inf :
    compute_mean_squared_slope demFlat 20 = 0 ∧
    compute_typical_width 0 1 = NpFloat.posInf := by
  constructor
  · exact compute_mean_squared_slope_const demFlat 1000 20 (fun i j _ _ => rfl)
  · have h2 : (0 : ℝ) < 1 * Real.sqrt 2 := by
      rw [one_mul]
      exact Real.sqrt_pos.mpr (by norm_num)
    simp only [compute_typical_width, npDivFloat]
    rw [if_neg (by simp), if_pos h2]

/-- Claim C8 counterexample: on the 3x3 unit ramp (s = 1) with delta x = 2 the
code returns sqrt 2 / 4, not the claimed s / sqrt 2 = 1 / sqrt 2. -/
theorem c8_counterexample_depends_on_delta_x :
    compute_mean_squared_slope demRamp3 2 = Real.sqrt 2 / 4 ∧
    compute_mean_squared_slope demRamp3 2 ≠ 1 / Real.sqrt 2 := by
  have hs2 : Real.sqrt 2 * Real.sqrt 2 = 2 := Real.mul_self_sqrt (by norm_num)
  have hpos : (0 : ℝ) < Real.sqrt 2 := Real.sqrt_pos.mpr (by norm_num)
  have hval : compute_mean_squared_slope demRamp3 2 = |(1 : ℝ)| / (2 * Real.sqrt 2) :=
    compute_mean_squared_slope_affine demRamp3 1 0 2
      (fun i j _ _ => by simp [demRamp3]) (by norm_num [demRamp3]) (by norm_num [demRamp3])
  rw [hval, abs_one]
  constructor
  · rw [div_eq_div_iff (by positivity) (by norm_num)]
    nlinarith
  · intro heq
    rw [div_eq_div_iff (by positivity) hpos.ne'] at heq
    nlinarith

/-- Claim C8 (amended): a window whose elevation is the linear ramp s * i, of
size at least 3x3, yields mu = abs s / (delta_x * sqrt 2): the claimed value
s / sqrt 2 divided by the grid resolution, with the slope in absolute value;
independent of the window size. -/
theorem c8_linear_slope_mu_amended (n m : ℕ) (s dx : ℝ)
    (hn : 3 ≤ n) (hm : 3 ≤ m) (hdx : 0 < dx) :
    compute_mean_squared_slope ⟨n, m, fun i _ => s * i⟩ dx = |s| / (dx * Real.sqrt 2) :=
  compute_mean_squared_slope_affine ⟨n, m, fun i _ => s * i⟩ s 0 dx
    (fun i j _ _ => by ring) (by change 2 ≤ n; omega) (by change 2 ≤ m; omega)

theorem c8_linear_slope_mu_amended_witness :
    compute_mean_squared_slope ⟨3, 3, fun i _ => 2 * i⟩ 1 = |(2 : ℝ)| / (1 * Real.sqrt 2) :=
  c8_linear_slope_mu_amended 3 3 2 1 (by norm_num) (by norm_num) (by norm_num)

/-- Claim C9: for any elevation array of size at least 3x3 and delta x gt 0,
the Laplacian array has the shape of the input, its one-pixel border frame is
entirely no-data, and every interior pixel is the 5-point stencil sum (four
edge neighbours minus four times the center) divided by delta x squared and
then multiplied by delta x / 4. -/
theorem c9_laplacian_shape_border_interior (m : Grid ℝ) (dx : ℝ)
    (hr : 3 ≤ m.rows) (hc : 3 ≤ m.cols) (hdx : 0 < dx) :
    (compute_elevation_laplacien m dx).rows = m.rows ∧
    (compute_elevation_laplacien m dx).cols = m.cols ∧
    (∀ i j, i < m.rows → j < m.cols →
      (i = 0 ∨ i = m.rows - 1 ∨ j = 0 ∨ j = m.cols - 1) →
      (compute_elevation_laplacien m dx).val i j = none) ∧
    (∀ i j, 1 ≤ i → i + 1 < m.rows → 1 ≤ j → j + 1 < m.cols →
      (compute_elevation_laplacien m dx).val i j =
        some ((m.val (i - 1) j + m.val (i + 1) j + m.val i (j - 1) + m.val i (j + 1) -
          4 * m.val i j) / dx ^ 2 * (dx / 4))) := by
  refine ⟨rfl, rfl, ?_, ?_⟩
  · intro i j hi hj hb
    have hcond : ¬ (1 ≤ i ∧ i + 1 < m.rows ∧ 1 ≤ j ∧ j + 1 < m.cols) := by omega
    simp [compute_elevation_laplacien, hcond]
  · intro i j h1 h2 h3 h4
    have e1 : i - 1 + 2 = i + 1 := by omega
    have e2 : i - 1 + 1 = i := by omega
    have e3 : j - 1 + 2 = j + 1 := by omega
    have e4 : j - 1 + 1 = j := by omega
    have hcond : 1 ≤ i ∧ i + 1 < m.rows ∧ 1 ≤ j ∧ j + 1 < m.cols := ⟨h1, h2, h3, h4⟩
    simp only [compute_elevation_laplacien, hcond, and_self, if_true, Option.map_some]
    simp [gridDivScalar, convolve2d_valid, laplacian_kernel, e1, e2, e3, e4]
    ring

theorem c9_laplacian_shape_border_interior_witness :
    (compute_elevation_laplacien demRamp3 1).rows = demRamp3.rows ∧
    (compute_elevation_laplacien demRamp3 1).cols = demRamp3.cols ∧
    (∀ i j, i < demRamp3.rows → j < demRamp3.cols →
      (i = 0 ∨ i = demRamp3.rows - 1 ∨ j = 0 ∨ j = demRamp3.cols - 1) →
      (compute_elevation_laplacien demRamp3 1).val i j = none) ∧
    (∀ i j, 1 ≤ i → i + 1 < demRamp3.rows → 1 ≤ j → j + 1 < demRamp3.cols →
      (compute_elevation_laplacien demRamp3 1).val i j =
        some ((demRamp3.val (i - 1) j + demRamp3.val (i + 1) j + demRamp3.val i (j - 1) +
          demRamp3.val i (j + 1) - 4 * demRamp3.val i j) / 1 ^ 2 * (1 / 4))) :=
  c9_laplacian_shape_border_interior demRamp3 1
    (by norm_num [demRamp3]) (by norm_num [demRamp3]) (by norm_num)

/-- Claim C10: mu is invariant under a uniform elevation offset, for any
window of size at least 3x3 and delta x gt 0: after the documented cropping
every retained kernel response is a difference of two in-window elevations. -/
theorem c10_mu_offset_invariant (m : Grid ℝ) (cst dx : ℝ)
    (hr : 3 ≤ m.rows) (hc : 3 ≤ m.cols) (hdx : 0 < dx) :
    compute_mean_squared_slope ⟨m.rows, m.cols, fun i j => m.val i j + cst⟩ dx =
      compute_mean_squared_slope m dx := by
  rw [compute_mean_squared_slope_eq_sum, compute_mean_squared_slope_eq_sum]
  have hsums :
      (∑ i ∈ Finset.range (m.rows - 1), ∑ j ∈ Finset.range (m.cols - 1),
        (((m.val (i + 1) j + cst) - (m.val i j + cst)) ^ 2 +
         ((m.val i (j + 1) + cst) - (m.val i j + cst)) ^ 2)) =
      (∑ i ∈ Finset.range (m.rows - 1), ∑ j ∈ Finset.range (m.cols - 1),
        ((m.val (i + 1) j - m.val i j) ^ 2 + (m.val i (j + 1) - m.val i j) ^ 2)) := by
    refine Finset.sum_congr rfl fun i _ => Finset.sum_congr rfl fun j _ => ?_
    ring
  rw [hsums]

theorem c10_mu_offset_invariant_witness :
    compute_mean_squared_slope
        ⟨demFlat.rows, demFlat.cols, fun i j => demFlat.val i j + 5⟩ 1 =
      compute_mean_squared_slope demFlat 1 :=
  c10_mu_offset_invariant demFlat 5 1
    (by norm_num [demFlat]) (by norm_num [demFlat]) (by norm_num)

/-- Claim C1, evaluated at the failing input: on a 300x300 ramp DEM, a first
interior cell writes its sub-block pixel, but appending a second cell whose
subset is empty (centroid index (0, 0)) makes the wrapper return the sentinel
pair, and the driver loop reassigns both output rasters to the plain integer
-999: the previously written values are destroyed, not preserved. -/
theorem c1_raster_failure_destroys_previous_output :
    (raster_mode_driver demRamp [((150 : ℤ), (150 : ℤ))]).1.getPixel 150 150 =
      some (cellFsky demRamp ((150 : ℤ), (150 : ℤ))) ∧
    raster_mode_driver demRamp [((150 : ℤ), (150 : ℤ)), ((0 : ℤ), (0 : ℤ))] =
      (.int (-999), .int (-999)) := by
  have hs1 : succeeds demRamp ((150 : ℤ), (150 : ℤ)) := by
    constructor <;> decide
  have hcov : covers demRamp ((150 : ℤ), (150 : ℤ)) (150, 150) := by
    refine ⟨?_, ?_, ?_, ?_⟩ <;> decide
  have hfail : ¬ succeeds demRamp ((0 : ℤ), (0 : ℤ)) := by
    intro h
    exact absurd h.1 (by decide)
  constructor
  · rw [raster_mode_driver_success demRamp [((150 : ℤ), (150 : ℤ))]
      (by intro c hc; simp at hc; subst hc; exact hs1)]
    simp only [PyVal.getPixel]
    exact writeF_val_covered demRamp ((150 : ℤ), (150 : ℤ)) _ (150, 150) rfl rfl hcov
  · simp only [raster_mode_driver]
    rw [show ([((150 : ℤ), (150 : ℤ)), ((0 : ℤ), (0 : ℤ))] : List Cell) =
      [((150 : ℤ), (150 : ℤ))] ++ [((0 : ℤ), (0 : ℤ))] from rfl]
    rw [List.foldl_append]
    rw [foldl_wrapper_success demRamp [((150 : ℤ), (150 : ℤ))]
      (by intro c hc; simp at hc; subst hc; exact hs1) _ _]
    simp only [List.foldl_cons, List.foldl_nil]
    exact wrapper_failure demRamp ((0 : ℤ), (0 : ℤ)) _ _ hfail

/-- Claim C3, evaluated at the failing input: on a 40x40 DEM, the cell with
centroid index (35, 20) needs a 25x25 window that overruns the bottom edge;
Python slicing silently truncates it to 17x25, no exception is raised, and
the attribute wrapper returns a populated row whose mu was computed over the
truncated window (sqrt 2 / 40 for the unit ramp), instead of a no-data skip
outcome. -/
theorem c3_truncated_window_attributes_computed :
    (pySub demRamp40 (35 - 12) (35 + 13) (20 - 12) (20 + 13)).rows = 17 ∧
    (sky_view_factor_processing_wrapper demRamp40 ((35 : ℤ), (20 : ℤ))).map
        (fun t => t.1) = some (Real.sqrt 2 / 40) := by
  have hs2 : Real.sqrt 2 * Real.sqrt 2 = 2 := Real.mul_self_sqrt (by norm_num)
  constructor
  · decide
  · simp only [sky_view_factor_processing_wrapper, Option.map_some']
    congr 1
    have hmu : compute_mean_squared_slope
        (pySub demRamp40 ((35 : ℤ) - 12) ((35 : ℤ) + 13) ((20 : ℤ) - 12) ((20 : ℤ) + 13))
        delta_x = |(1 : ℝ)| / (20 * Real.sqrt 2) := by
      have harg : delta_x = (20 : ℝ) := rfl
      rw [harg]
      refine compute_mean_squared_slope_affine _ 1 23 20 ?_ (by decide) (by decide)
      intro i j hi hj
      show demRamp40.val (pyBound 40 23 + i) (pyBound 40 8 + j) = 1 * i + 23
      simp only [demRamp40, pyBound]
      norm_num
      push_cast
      ring
    rw [hmu, abs_one, div_eq_div_iff (by positivity) (by norm_num)]
    nlinarith

/-- Claim C4 counterexample: two successfully processed overlapping cells on
a 300x300 ramp DEM, followed by one failing cell; the final value of both
output rasters is the integer -999, so the overlap pixel does not hold the
value written by the later of the two cells. -/
theorem c4_counterexample_later_failure :
    succeeds demRamp ((150 : ℤ), (150 : ℤ)) ∧ succeeds demRamp ((170 : ℤ), (150 : ℤ)) ∧
    covers demRamp ((150 : ℤ), (150 : ℤ)) (160, 150) ∧
    covers demRamp ((170 : ℤ), (150 : ℤ)) (160, 150) ∧
    raster_mode_driver demRamp
        [((150 : ℤ), (150 : ℤ)), ((170 : ℤ), (150 : ℤ)), ((0 : ℤ), (0 : ℤ))] =
      (.int (-999), .int (-999)) := by
  have hs1 : succeeds demRamp ((150 : ℤ), (150 : ℤ)) := by constructor <;> decide
  have hs2 : succeeds demRamp ((170 : ℤ), (150 : ℤ)) := by constructor <;> decide
  have hfail : ¬ succeeds demRamp ((0 : ℤ), (0 : ℤ)) := by
    intro h
    exact absurd h.1 (by decide)
  refine ⟨hs1, hs2, by refine ⟨?_, ?_, ?_, ?_⟩ <;> decide,
    by refine ⟨?_, ?_, ?_, ?_⟩ <;> decide, ?_⟩
  simp only [raster_mode_driver]
  rw [show ([((150 : ℤ), (150 : ℤ)), ((170 : ℤ), (150 : ℤ)), ((0 : ℤ), (0 : ℤ))] :
      List Cell) =
    [((150 : ℤ), (150 : ℤ)), ((170 : ℤ), (150 : ℤ))] ++ [((0 : ℤ), (0 : ℤ))] from rfl]
  rw [List.foldl_append]
  rw [foldl_wrapper_success demRamp [((150 : ℤ), (150 : ℤ)), ((170 : ℤ), (150 : ℤ))]
    (by intro c hc; simp at hc; rcases hc with h | h <;> subst h <;> assumption) _ _]
  simp only [List.foldl_cons, List.foldl_nil]
  exact wrapper_failure demRamp ((0 : ℤ), (0 : ℤ)) _ _ hfail

/-- Claim C4 (amended): in raster mode, if every cell of the collection
processes successfully, then for any two overlapping cells the overlap pixel
of both final rasters holds the value written by the later of the two,
provided no cell after it also covers that pixel (any later covering cell
overwrites it, and any later failure replaces both rasters by the integer
sentinel). -/
theorem c4_last_write_wins_amended (dem : Grid ℝ) (l0 l1 l2 : List Cell)
    (c1 c2 : Cell) (p : ℕ × ℕ)
    (hall : ∀ c ∈ l0 ++ c1 :: l1 ++ c2 :: l2, succeeds dem c)
    (hc1 : covers dem c1 p) (hc2 : covers dem c2 p)
    (hlast : ∀ c ∈ l2, ¬ covers dem c p) :
    (raster_mode_driver dem (l0 ++ c1 :: l1 ++ c2 :: l2)).1.getPixel p.1 p.2 =
      some (cellFsky dem c2) ∧
    (raster_mode_driver dem (l0 ++ c1 :: l1 ++ c2 :: l2)).2.getPixel p.1 p.2 =
      cellXval dem c2 p := by
  rw [raster_mode_driver_success dem _ hall]
  have hre : l0 ++ c1 :: l1 ++ c2 :: l2 = (l0 ++ c1 :: l1) ++ c2 :: l2 := by simp
  constructor
  · simp only [PyVal.getPixel]
    rw [hre]
    exact mosaicF_last_writer dem (l0 ++ c1 :: l1) l2 c2 _ p rfl rfl hc2 hlast
  · simp only [PyVal.getPixel]
    rw [hre]
    exact mosaicX_last_writer dem (l0 ++ c1 :: l1) l2 c2 _ p rfl rfl hc2 hlast

theorem c4_last_write_wins_amended_witness :
    (raster_mode_driver demRamp
        ([] ++ ((150 : ℤ), (150 : ℤ)) :: [] ++ ((170 : ℤ), (150 : ℤ)) :: [])).1.getPixel
        160 150 = some (cellFsky demRamp ((170 : ℤ), (150 : ℤ))) ∧
    (raster_mode_driver demRamp
        ([] ++ ((150 : ℤ), (150 : ℤ)) :: [] ++ ((170 : ℤ), (150 : ℤ)) :: [])).2.getPixel
        160 150 = cellXval demRamp ((170 : ℤ), (150 : ℤ)) (160, 150) :=
  c4_last_write_wins_amended demRamp [] [] [] ((150 : ℤ), (150 : ℤ))
    ((170 : ℤ), (150 : ℤ)) (160, 150)
    (by intro c hc; simp at hc; rcases hc with h | h <;> subst h <;>
      exact ⟨by decide, by decide⟩)
    (by refine ⟨?_, ?_, ?_, ?_⟩ <;> decide)
    (by refine ⟨?_, ?_, ?_, ?_⟩ <;> decide)
    (by intro c hc; simp at hc)

end

end HRDPS
